import Mathlib

/-!
Verification of the experiment store `mlstorage_server/mldb.py`.

The module stores ML experiment runs as documents in a MongoDB collection.
We embed the documents as ordered key/value lists (Python dicts), the
collection as a list of documents, and each coroutine of the `MLDB` class
as a pure state-passing function.  The current UTC time (`datetime.utcnow`)
is passed explicitly as a `Nat` tick, and MongoDB object ids are `Nat`.
-/

namespace Mldb

/-- Field values of an experiment document: object identifiers, strings,
UTC timestamps (abstract ticks) and booleans. -/
inductive Val where
  | vId (n : Nat)
  | vStr (s : String)
  | vTime (t : Nat)
  | vBool (b : Bool)
deriving DecidableEq, Repr

/-- A document is an ordered key/value association list, embedding a Python
dict (keys are unique in any dict the code builds; see `dictNorm`). -/
abbrev DocOf (α : Type) := List (String × α)

/-- An experiment document as stored in the collection. -/
abbrev Doc := DocOf Val

/-- Dict lookup: the value at key `k`, or `none` when the key is absent. -/
def dlookup (d : DocOf α) (k : String) : Option α :=
  match d with
  | [] => none
  | (k', v) :: rest => if k' = k then some v else dlookup rest k

/-- Dict assignment `d[k] = v`: overwrites the first occurrence of `k` in
place, or appends the pair when `k` is absent. -/
def dset (d : DocOf α) (k : String) (v : α) : DocOf α :=
  match d with
  | [] => [(k, v)]
  | (k', v') :: rest => if k' = k then (k, v) :: rest else (k', v') :: dset rest k v

/-- Dict removal `d.pop(k, None)`: removes every pair whose key is `k`. -/
def dpop (d : DocOf α) (k : String) : DocOf α :=
  match d with
  | [] => []
  | (k', v) :: rest => if k' = k then dpop rest k else (k', v) :: dpop rest k

/-- Python `dict(pairs)`: inserts the pairs left to right, so a later value
for a key wins while the key keeps its first position.  The result has
unique keys. -/
def dictNorm (d : DocOf α) : DocOf α :=
  d.foldl (fun acc p => dset acc p.1 p.2) []

/-- MongoDB `$set`: apply every field of `fields` to document `d`. -/
def applySet (fields : DocOf α) (d : DocOf α) : DocOf α :=
  fields.foldl (fun acc p => dset acc p.1 p.2) d

/-- Keys of a document are pairwise distinct (true of every Python dict). -/
def dkeysNodup : DocOf α → Prop
  | [] => True
  | (k, _) :: rest => dlookup rest k = none ∧ dkeysNodup rest

/-- Embeds `pop_experiment_id`: remove the id and internal id fields. -/
def pop_experiment_id (d : DocOf α) : DocOf α :=
  dpop (dpop d "_id") "id"

/-- Embeds the body of `to_database_experiment_doc` on a present document:
rename the caller-facing id field to the internal primary-key field. -/
def to_database_doc (d : DocOf α) : DocOf α :=
  match dlookup d "id" with
  | some v => dset (dpop d "id") "_id" v
  | none => d

/-- Embeds `to_database_experiment_doc`, which tolerates a missing document. -/
def to_database_experiment_doc : Option (DocOf α) → Option (DocOf α)
  | none => none
  | some d => some (to_database_doc d)

/-- Embeds the body of `from_database_experiment_doc` on a present document:
rename the internal primary-key field back to the caller-facing id field. -/
def from_database_doc (d : DocOf α) : DocOf α :=
  match dlookup d "_id" with
  | some v => dset (dpop d "_id") "id" v
  | none => d

/-- Embeds `from_database_experiment_doc`, which tolerates a missing
document. -/
def from_database_experiment_doc : Option (DocOf α) → Option (DocOf α)
  | none => none
  | some d => some (from_database_doc d)

theorem dlookup_dset (d : DocOf α) (k k' : String) (v : α) :
    dlookup (dset d k v) k' = if k = k' then some v else dlookup d k' := by
  induction d with
  | nil => simp [dset, dlookup]
  | cons p rest ih =>
    obtain ⟨k₀, v₀⟩ := p
    by_cases h₀ : k₀ = k
    · subst h₀
      by_cases h₁ : k₀ = k'
      · subst h₁; simp [dset, dlookup]
      · simp [dset, dlookup, h₁]
    · by_cases h₁ : k₀ = k'
      · subst h₁
        have hne : k ≠ k₀ := fun h => h₀ h.symm
        simp [dset, dlookup, h₀, hne]
      · simp [dset, dlookup, h₀, h₁, ih]

theorem dlookup_dpop (d : DocOf α) (k k' : String) :
    dlookup (dpop d k) k' = if k = k' then none else dlookup d k' := by
  induction d with
  | nil => simp [dpop, dlookup]
  | cons p rest ih =>
    obtain ⟨k₀, v₀⟩ := p
    by_cases h₀ : k₀ = k
    · subst h₀
      by_cases h₁ : k₀ = k'
      · subst h₁; simpa [dpop, dlookup] using ih
      · simp [dpop, dlookup, h₁, ih]
    · by_cases h₁ : k₀ = k'
      · subst h₁
        have hne : k ≠ k₀ := fun h => h₀ h.symm
        simp [dpop, dlookup, h₀, hne, ih]
      · simp [dpop, dlookup, h₀, h₁, ih]

/-- A query-filter constraint on one field: a literal equality, or the
not-equal operator used to exclude soft-deleted documents (Mongo's
not-equal also matches documents where the field is absent). -/
inductive FVal where
  | eq (v : Val)
  | ne (v : Val)
deriving DecidableEq, Repr

/-- A query filter is a mapping from field names to constraints. -/
abbrev Filter := DocOf FVal

/-- Does the document satisfy one field constraint? -/
def matchFVal (d : Doc) (k : String) : FVal → Bool
  | .eq v => dlookup d k == some v
  | .ne v => !(dlookup d k == some v)

/-- Does the document satisfy every constraint of the filter? -/
def matchFilter (f : Filter) (d : Doc) : Bool :=
  f.all fun p => matchFVal d p.1 p.2

/-- Rank separating value types: MongoDB orders values of different BSON
types by type (string < ObjectId < boolean < date). -/
def valRank : Val → Nat
  | .vStr _ => 1
  | .vId _ => 2
  | .vBool _ => 3
  | .vTime _ => 4

/-- Three-way comparison from a linear order. -/
def cmpL [LinearOrder α] (x y : α) : Ordering :=
  if x < y then .lt else if x = y then .eq else .gt

/-- Total comparison of field values: by type rank, then by payload. -/
def cmpVal : Val → Val → Ordering
  | .vStr a, .vStr b => cmpL a b
  | .vId a, .vId b => cmpL a b
  | .vBool a, .vBool b => cmpL a b
  | .vTime a, .vTime b => cmpL a b
  | a, b => cmpL (valRank a) (valRank b)

/-- Comparison of possibly-absent field values: an absent field sorts
below every present value, as Mongo's null does. -/
def cmpOptVal : Option Val → Option Val → Ordering
  | none, none => .eq
  | none, some _ => .lt
  | some _, none => .gt
  | some a, some b => cmpVal a b

/-- Comparison of two documents under a Mongo sort specification: compare
on each (field, direction) pair in turn; a negative direction (pymongo
DESCENDING is -1) reverses the comparison on that field. -/
def cmpBySpec : List (String × Int) → Doc → Doc → Ordering
  | [], _, _ => .eq
  | (k, dir) :: rest, a, b =>
    let c := if dir < 0 then cmpOptVal (dlookup b k) (dlookup a k)
             else cmpOptVal (dlookup a k) (dlookup b k)
    match c with
    | .eq => cmpBySpec rest a b
    | o => o

/-- Sort-order test between documents, fed to the sorting routine. -/
def docLe (spec : List (String × Int)) (a b : Doc) : Bool :=
  decide (cmpBySpec spec a b ≠ .gt)

/-- Sorting a result set, as the database does for a find with a sort. -/
def sortDocs (spec : List (String × Int)) (docs : List Doc) : List Doc :=
  docs.mergeSort (docLe spec)

/-- The database's find_one: first document matching the predicate. -/
def findOne (p : Doc → Bool) (coll : List Doc) : Option Doc :=
  coll.find? p

/-- The database's update_one with a $set document: applies the fields to
the first matching document and reports the matched count. -/
def updateOne (p : Doc → Bool) (fields : Doc) : List Doc → Nat × List Doc
  | [] => (0, [])
  | d :: rest =>
    if p d then (1, applySet fields d :: rest)
    else
      let r := updateOne p fields rest
      (r.1, d :: r.2)

/-- The database's delete_one: removes the first matching document and
reports the deleted count. -/
def deleteOne (p : Doc → Bool) : List Doc → Nat × List Doc
  | [] => (0, [])
  | d :: rest =>
    if p d then (1, rest)
    else
      let r := deleteOne p rest
      (r.1, d :: r.2)

/-- Exceptions surfaced by the store: InvalidIdentifier (malformed id,
rejected by the schema validator), NotFound (Python KeyError raised by
`_update`), and InvalidArgument (Python ValueError raised by
`set_finished`). -/
inductive Err where
  | invalidIdentifier
  | keyError (idv : Val)
  | valueError
deriving DecidableEq, Repr

/-- A caller-supplied identifier: either a value that parses to a native
object id, or a malformed one. -/
inductive ExpId where
  | valid (n : Nat)
  | malformed
deriving DecidableEq, Repr

/-- Modelled from the spec: `validate_experiment_id` lives in
`mlstorage_server.schema`, which is not among the sources.  Per the spec an
identifier is an opaque value that round-trips between string and native
forms, and malformed values must be rejected (InvalidIdentifier) before
reaching the database. -/
def validate_experiment_id : ExpId → Except Err Nat
  | .valid n => .ok n
  | .malformed => .error .invalidIdentifier

/-- Modelled from the spec: `validate_experiment_doc` lives in
`mlstorage_server.schema`, which is not among the sources.  The spec treats
it as an opaque validator with a pass/fail contract whose concrete rules
are out of scope; we model the passing case, which returns the shaped
document, as the identity. -/
def validate_experiment_doc (d : DocOf α) : DocOf α := d

/-- State of one `MLDB` instance together with its MongoDB collection: the
stored documents in natural order, the next object id the database will
assign, and the one-shot index-ensured flag. -/
structure MLDB where
  collection : List Doc
  nextId : Nat
  indexesEnsured : Bool
deriving DecidableEq, Repr

/-- Embeds `ensure_indexes`: sets the one-shot flag.  The secondary-index
metadata itself lives inside the database engine and affects no stored
document, so it is not part of the modelled state. -/
def MLDB.ensure_indexes (db : MLDB) : MLDB :=
  { db with indexesEnsured := true }

/-- The filter `{_id: idv, deleted: {$ne: true}}` used by `get` and by
`_update`. -/
def matchesIdAlive (idv : Val) (d : Doc) : Bool :=
  (dlookup d "_id" == some idv) && !(dlookup d "deleted" == some (Val.vBool true))

/-- Embeds `MLDB.get`: find the non-deleted document with the given id and
rename its primary-key field on the way out. -/
def MLDB.get (db : MLDB) (id : ExpId) : Except Err (Option Doc) := do
  let i ← validate_experiment_id id
  pure (from_database_experiment_doc
    (findOne (matchesIdAlive (Val.vId i)) db.collection))

/-- Embeds `MLDB.create`; `now` is the value of `datetime.utcnow()`.
Returns the inserted id together with the new state.  The fallback value
fed to getD for the heartbeat default is dead code: start_time is present
at that point, either supplied by the caller or just defaulted. -/
def MLDB.create (db : MLDB) (now : Nat) (name : String)
    (doc_fields : Option Doc) : Nat × MLDB :=
  let fields := validate_experiment_doc
    (pop_experiment_id (dictNorm (doc_fields.getD [])))
  let fields := dset fields "name" (Val.vStr name)
  let fields := if (dlookup fields "start_time").isSome then fields
    else dset fields "start_time" (Val.vTime now)
  let fields := if (dlookup fields "heartbeat").isSome then fields
    else dset fields "heartbeat" ((dlookup fields "start_time").getD (Val.vTime now))
  let fields := if (dlookup fields "status").isSome then fields
    else dset fields "status" (Val.vStr "RUNNING")
  let db := db.ensure_indexes
  let newDoc := dset fields "_id" (Val.vId db.nextId)
  (db.nextId,
    { db with collection := db.collection ++ [newDoc], nextId := db.nextId + 1 })

/-- Embeds `MLDB._update`: a $set update restricted to the non-deleted
document with the given primary key; zero matched documents raises the
KeyError. -/
def MLDB._update (db : MLDB) (idv : Val) (doc_fields : Doc) :
    Except Err Unit × MLDB :=
  let r := updateOne (matchesIdAlive idv) doc_fields db.collection
  if r.1 < 1 then (.error (.keyError idv), { db with collection := r.2 })
  else (.ok (), { db with collection := r.2 })

/-- Embeds `MLDB.update`: validate the id, strip identifier fields from
the payload, and delegate to `_update` only when fields remain. -/
def MLDB.update (db : MLDB) (id : ExpId) (doc_fields : Option Doc) :
    Except Err Unit × MLDB :=
  match validate_experiment_id id with
  | .error e => (.error e, db)
  | .ok i =>
    let fields := validate_experiment_doc
      (pop_experiment_id (dictNorm (doc_fields.getD [])))
    let db := db.ensure_indexes
    if fields.isEmpty then (.ok (), db)
    else MLDB._update db (Val.vId i) fields

/-- Embeds `MLDB.set_heartbeat`.  The source passes the raw id through to
`_update` without validating it, so the id is taken as a raw value. -/
def MLDB.set_heartbeat (db : MLDB) (now : Nat) (idv : Val)
    (doc_fields : Option Doc) : Except Err Unit × MLDB :=
  let fields := validate_experiment_doc
    (pop_experiment_id (dictNorm (doc_fields.getD [])))
  let fields := dset fields "heartbeat" (Val.vTime now)
  let db := db.ensure_indexes
  MLDB._update db idv fields

/-- Embeds `MLDB.set_finished`: reject a status other than COMPLETED or
FAILED before anything else, then force stop_time, heartbeat and status
and delegate to `_update`. -/
def MLDB.set_finished (db : MLDB) (now : Nat) (idv : Val) (status : String)
    (doc_fields : Option Doc) : Except Err Unit × MLDB :=
  if ¬ (status = "COMPLETED" ∨ status = "FAILED") then (.error .valueError, db)
  else
    let fields := validate_experiment_doc
      (pop_experiment_id (dictNorm (doc_fields.getD [])))
    let fields := dset fields "stop_time" (Val.vTime now)
    let fields := dset fields "heartbeat" (Val.vTime now)
    let fields := dset fields "status" (Val.vStr status)
    let db := db.ensure_indexes
    MLDB._update db idv fields

/-- Runs the per-child recursive call over the children in order,
threading the collection state, as the child loop of `_mark_delete`
does. -/
def runChildren (f : Val → List Doc → List Val × List Doc) :
    List Val → List Doc → List Val × List Doc
  | [], coll => ([], coll)
  | c :: rest, coll =>
    let r₁ := f c coll
    let r₂ := runChildren f rest r₁.2
    (r₁.1 ++ r₂.1, r₂.2)

/-- Embeds `MLDB._mark_delete`, with explicit recursion fuel: the source
recurses without bound and relies on the invariant that parent links are
acyclic.  Marks the document `idv` deleted unconditionally; when it was
found, recurses into every document whose parent_id equals `idv`
(soft-deleted children included). -/
def markDeleteAux : Nat → Val → List Doc → List Val × List Doc
  | 0 => fun _ coll => ([], coll)
  | fuel + 1 => fun idv coll =>
    let r := updateOne (fun d => dlookup d "_id" == some idv)
      [("deleted", Val.vBool true)] coll
    if r.1 > 0 then
      let children := (r.2.filter fun d => dlookup d "parent_id" == some idv).filterMap
        fun d => dlookup d "_id"
      let rc := runChildren (markDeleteAux fuel) children r.2
      (idv :: rc.1, rc.2)
    else ([], r.2)

/-- Embeds `MLDB.mark_delete`: validate the id, ensure indexes, then run
the recursive marking pass with the given fuel. -/
def MLDB.mark_delete (fuel : Nat) (db : MLDB) (id : ExpId) :
    Except Err (List Val) × MLDB :=
  match validate_experiment_id id with
  | .error e => (.error e, db)
  | .ok i =>
    let db := db.ensure_indexes
    let r := markDeleteAux fuel (Val.vId i) db.collection
    (.ok r.1, { db with collection := r.2 })

/-- Accumulator pass of `distinctIds`: append each identifier not yet
seen. -/
def distinctAux : List Nat → List Nat → List Nat
  | acc, [] => acc
  | acc, i :: rest =>
    if i ∈ acc then distinctAux acc rest else distinctAux (acc ++ [i]) rest

/-- Removes duplicate identifiers keeping first occurrences, embedding the
Python set built by `complete_deletion` (the set's iteration order is
unspecified; first-occurrence order is one refinement of it). -/
def distinctIds (l : List Nat) : List Nat :=
  distinctAux [] l

/-- Runs one delete_one per identifier and sums the deleted counts.  The
source dispatches the deletions concurrently via gather; each delete_one
is a single atomic database operation, so the outcome is their execution
in some serial order, of which this is one. -/
def deleteAll : List Nat → List Doc → Nat × List Doc
  | [], coll => (0, coll)
  | i :: rest, coll =>
    let s := deleteOne (fun d => dlookup d "_id" == some (Val.vId i)) coll
    let r := deleteAll rest s.2
    (s.1 + r.1, r.2)

/-- Validates the identifiers left to right, stopping at the first
malformed one, as consuming the generator inside the Python set
constructor does. -/
def validateIds : List ExpId → Except Err (List Nat)
  | [] => .ok []
  | i :: rest => do
    let n ← validate_experiment_id i
    let ns ← validateIds rest
    pure (n :: ns)

/-- Embeds `MLDB.complete_deletion`: validate every identifier (the set
comprehension runs every validation before any deletion task is awaited),
deduplicate, then hard-delete one document per distinct identifier and
return the total deleted count. -/
def MLDB.complete_deletion (db : MLDB) (id_list : List ExpId) :
    Except Err Nat × MLDB :=
  match validateIds id_list with
  | .error e => (.error e, db)
  | .ok ids =>
    let ids := distinctIds ids
    let db := db.ensure_indexes
    let r := deleteAll ids db.collection
    (.ok r.1, { db with collection := r.2 })

/-- Cursor skip, applied only when the skip count is truthy, as in the
source (`if skip:`). -/
def applySkip (skip : Option Nat) (docs : List Doc) : List Doc :=
  match skip with
  | none => docs
  | some s => if s = 0 then docs else docs.drop s

/-- Cursor limit, applied only when the limit is truthy, as in the source
(`if limit:`; a limit of 0 means no limit, as in MongoDB). -/
def applyLimit (limit : Option Nat) (docs : List Doc) : List Doc :=
  match limit with
  | none => docs
  | some l => if l = 0 then docs else docs.take l

/-- Embeds `MLDB.iter_docs` (the list of documents the generator yields):
build the filter, exclude deleted documents unless asked otherwise, sort
(by descending heartbeat when no ordering is given), apply skip and limit
(a falsy 0 disables either, as in the source), and rename the primary-key
field on each document yielded. -/
def MLDB.iter_docs (db : MLDB) (filter : Option Filter)
    (skip limit : Option Nat) (sort_by : Option (List (String × Int)))
    (include_deleted : Bool) : List Doc :=
  let filter_ := to_database_doc (validate_experiment_doc (dictNorm (filter.getD [])))
  let filter_ := if include_deleted then filter_
    else dset filter_ "deleted" (FVal.ne (Val.vBool true))
  let sortSpec := sort_by.getD [("heartbeat", (-1 : Int))]
  let docs := sortDocs sortSpec (db.collection.filter (matchFilter filter_))
  let docs := applySkip skip docs
  let docs := applyLimit limit docs
  docs.map from_database_doc

/-- Embeds `MLDB.fetch_docs`: materializes `iter_docs` (our model already
returns the whole yielded list). -/
def MLDB.fetch_docs (db : MLDB) (filter : Option Filter)
    (skip limit : Option Nat) (sort_by : Option (List (String × Int)))
    (include_deleted : Bool) : List Doc :=
  db.iter_docs filter skip limit sort_by include_deleted

/-! Basic dictionary lemmas. -/

@[simp] theorem ensure_indexes_collection (db : MLDB) :
    db.ensure_indexes.collection = db.collection := rfl

@[simp] theorem ensure_indexes_nextId (db : MLDB) :
    db.ensure_indexes.nextId = db.nextId := rfl

theorem dkeysNodup_cons (k : String) (v : α) (d : DocOf α) :
    dkeysNodup ((k, v) :: d) ↔ dlookup d k = none ∧ dkeysNodup d :=
  Iff.rfl

theorem dkeysNodup_dset (d : DocOf α) (k : String) (v : α)
    (h : dkeysNodup d) : dkeysNodup (dset d k v) := by
  induction d with
  | nil => exact ⟨rfl, trivial⟩
  | cons p rest ih =>
    obtain ⟨k₀, v₀⟩ := p
    rw [dkeysNodup_cons] at h
    obtain ⟨hnone, hrest⟩ := h
    by_cases h₀ : k₀ = k
    · subst h₀
      rw [show dset ((k₀, v₀) :: rest) k₀ v = (k₀, v) :: rest by simp [dset]]
      exact (dkeysNodup_cons _ _ _).mpr ⟨hnone, hrest⟩
    · rw [show dset ((k₀, v₀) :: rest) k v = (k₀, v₀) :: dset rest k v by
        simp [dset, h₀]]
      refine (dkeysNodup_cons _ _ _).mpr ⟨?_, ih hrest⟩
      rw [dlookup_dset, if_neg (fun h => h₀ h.symm)]
      exact hnone

theorem dkeysNodup_dpop (d : DocOf α) (k : String)
    (h : dkeysNodup d) : dkeysNodup (dpop d k) := by
  induction d with
  | nil => trivial
  | cons p rest ih =>
    obtain ⟨k₀, v₀⟩ := p
    rw [dkeysNodup_cons] at h
    obtain ⟨hnone, hrest⟩ := h
    by_cases h₀ : k₀ = k
    · subst h₀
      rw [show dpop ((k₀, v₀) :: rest) k₀ = dpop rest k₀ by simp [dpop]]
      exact ih hrest
    · rw [show dpop ((k₀, v₀) :: rest) k = (k₀, v₀) :: dpop rest k by
        simp [dpop, h₀]]
      refine (dkeysNodup_cons _ _ _).mpr ⟨?_, ih hrest⟩
      rw [dlookup_dpop, if_neg (fun h => h₀ h.symm)]
      exact hnone

theorem dkeysNodup_dictNorm (d : DocOf α) : dkeysNodup (dictNorm d) := by
  have main : ∀ (l : List (String × α)) (acc : DocOf α), dkeysNodup acc →
      dkeysNodup (l.foldl (fun acc p => dset acc p.1 p.2) acc) := by
    intro l
    induction l with
    | nil => intro acc h; simpa using h
    | cons p rest ih =>
      intro acc h
      exact ih _ (dkeysNodup_dset acc p.1 p.2 h)
  exact main d [] trivial

theorem dlookup_applySet_none (fs d : DocOf α) (k : String)
    (h : dlookup fs k = none) :
    dlookup (applySet fs d) k = dlookup d k := by
  induction fs generalizing d with
  | nil => simp [applySet]
  | cons p rest ih =>
    obtain ⟨k₀, v₀⟩ := p
    have h₀ : ¬ k₀ = k := by
      intro hk; subst hk; simp [dlookup] at h
    have hr : dlookup rest k = none := by
      simpa [dlookup, h₀] using h
    have : applySet ((k₀, v₀) :: rest) d = applySet rest (dset d k₀ v₀) := rfl
    rw [this, ih _ hr, dlookup_dset]
    simp [h₀]

theorem dlookup_applySet_some (fs d : DocOf α) (k : String) (v : α)
    (hnd : dkeysNodup fs) (h : dlookup fs k = some v) :
    dlookup (applySet fs d) k = some v := by
  induction fs generalizing d with
  | nil => simp [dlookup] at h
  | cons p rest ih =>
    obtain ⟨k₀, v₀⟩ := p
    rw [dkeysNodup_cons] at hnd
    have hstep : applySet ((k₀, v₀) :: rest) d = applySet rest (dset d k₀ v₀) := rfl
    by_cases h₀ : k₀ = k
    · subst h₀
      have hv : some v₀ = some v := by simpa [dlookup] using h
      rw [hstep, dlookup_applySet_none rest _ _ hnd.1, dlookup_dset]
      simpa using hv
    · have hr : dlookup rest k = some v := by simpa [dlookup, h₀] using h
      rw [hstep]
      exact ih _ hnd.2 hr

/-! Lemmas about the database primitives. -/

theorem updateOne_no_match (p : Doc → Bool) (fields : Doc) (coll : List Doc)
    (h : ∀ d ∈ coll, p d = false) :
    updateOne p fields coll = (0, coll) := by
  induction coll with
  | nil => rfl
  | cons d rest ih =>
    have hd := h d (by simp)
    have hr := ih fun d' hd' => h d' (by simp [hd'])
    simp [updateOne, hd, hr]

theorem updateOne_of_match (p : Doc → Bool) (fields : Doc) (coll : List Doc)
    (h : ∃ d ∈ coll, p d = true) :
    (updateOne p fields coll).1 = 1
    ∧ ∃ d0 ∈ coll, p d0 = true
        ∧ applySet fields d0 ∈ (updateOne p fields coll).2 := by
  induction coll with
  | nil => simp at h
  | cons d rest ih =>
    by_cases hp : p d = true
    · refine ⟨by simp [updateOne, hp], d, by simp, hp, by simp [updateOne, hp]⟩
    · have h' : ∃ d' ∈ rest, p d' = true := by
        rcases h with ⟨d', hd', hpd'⟩
        rcases List.mem_cons.mp hd' with h1 | h1
        · exact absurd (h1 ▸ hpd') hp
        · exact ⟨d', h1, hpd'⟩
      obtain ⟨h1, d0, hd0, hp0, hmem⟩ := ih h'
      refine ⟨by simp [updateOne, hp, h1], d0, by simp [hd0], hp0, ?_⟩
      simp [updateOne, hp]
      exact Or.inr hmem

/-! Rewrite rules for the identifier transforms. -/

theorem to_database_doc_of_id (d : DocOf α) (v : α)
    (h : dlookup d "id" = some v) :
    to_database_doc d = dset (dpop d "id") "_id" v := by
  unfold to_database_doc; rw [h]

theorem to_database_doc_of_none (d : DocOf α) (h : dlookup d "id" = none) :
    to_database_doc d = d := by
  unfold to_database_doc; rw [h]

theorem from_database_doc_of_id (d : DocOf α) (v : α)
    (h : dlookup d "_id" = some v) :
    from_database_doc d = dset (dpop d "_id") "id" v := by
  unfold from_database_doc; rw [h]

theorem from_database_doc_of_none (d : DocOf α) (h : dlookup d "_id" = none) :
    from_database_doc d = d := by
  unfold from_database_doc; rw [h]

/-- C8: the identifier rename transforms are mutually inverse and
exclusive: the outgoing transform never leaves the caller-facing id key,
the incoming transform never leaves the internal primary-key key, a
document with neither field is returned unchanged by both transforms, and
on a document carrying the caller-facing id but not the internal key the
outgoing-then-incoming round trip restores the original mapping. -/
theorem id_normalizer_props (d : Doc) :
    dlookup (to_database_doc d) "id" = none
    ∧ dlookup (from_database_doc d) "_id" = none
    ∧ (dlookup d "id" = none → dlookup d "_id" = none →
        to_database_experiment_doc (some d) = some d
        ∧ from_database_experiment_doc (some d) = some d)
    ∧ ((dlookup d "id").isSome → dlookup d "_id" = none →
        ∀ k, dlookup (from_database_doc (to_database_doc d)) k = dlookup d k) := by
  refine ⟨?_, ?_, ?_, ?_⟩
  · cases h : dlookup d "id" with
    | none => rw [to_database_doc_of_none d h]; exact h
    | some v =>
      rw [to_database_doc_of_id d v h, dlookup_dset, if_neg (by decide),
        dlookup_dpop, if_pos rfl]
  · cases h : dlookup d "_id" with
    | none => rw [from_database_doc_of_none d h]; exact h
    | some v =>
      rw [from_database_doc_of_id d v h, dlookup_dset, if_neg (by decide),
        dlookup_dpop, if_pos rfl]
  · intro h1 h2
    constructor
    · show some (to_database_doc d) = some d
      rw [to_database_doc_of_none d h1]
    · show some (from_database_doc d) = some d
      rw [from_database_doc_of_none d h2]
  · intro h1 h2 k
    obtain ⟨v, hv⟩ := Option.isSome_iff_exists.mp h1
    rw [to_database_doc_of_id d v hv]
    have hx : dlookup (dset (dpop d "id") "_id" v) "_id" = some v := by
      rw [dlookup_dset, if_pos rfl]
    rw [from_database_doc_of_id _ v hx]
    by_cases hk : k = "id"
    · subst hk
      rw [dlookup_dset, if_pos rfl, hv]
    · rw [dlookup_dset, if_neg (fun h => hk h.symm), dlookup_dpop]
      by_cases hk2 : k = "_id"
      · subst hk2
        rw [if_pos rfl, h2]
      · rw [if_neg (fun h => hk2 h.symm), dlookup_dset,
          if_neg (fun h => hk2 h.symm), dlookup_dpop,
          if_neg (fun h => hk h.symm)]

/-- Witness for the C8 theorem, at concrete documents. -/
theorem id_normalizer_props_witness :
    (∀ k, dlookup (from_database_doc (to_database_doc
        ([("id", Val.vId 5), ("a", Val.vStr "x")] : Doc))) k
      = dlookup ([("id", Val.vId 5), ("a", Val.vStr "x")] : Doc) k)
    ∧ to_database_experiment_doc (some ([("b", Val.vBool true)] : Doc))
        = some ([("b", Val.vBool true)] : Doc) :=
  ⟨(id_normalizer_props _).2.2.2 (by decide) (by decide),
   ((id_normalizer_props _).2.2.1 (by decide) (by decide)).1⟩

/-- C2 fails exactly as stated: on a nonexistent identifier with an empty
field map, update returns successfully (a silent no-op) instead of
raising the KeyError, because the source only calls the inner update when
the validated field set is nonempty. -/
theorem update_counterexample :
    (MLDB.update ⟨[], 0, false⟩ (ExpId.valid 1) none).1 = .ok () := by
  rfl

/-- C2 (amended): for every well-formed identifier with no matching
non-deleted document, update with a field map that is nonempty after
identifier stripping and validation fails with the KeyError. -/
theorem update_notfound (db : MLDB) (id : ExpId) (i : Nat)
    (doc_fields : Option Doc)
    (hid : validate_experiment_id id = .ok i)
    (hnone : ∀ d ∈ db.collection, matchesIdAlive (Val.vId i) d = false)
    (hne : pop_experiment_id (dictNorm (doc_fields.getD [])) ≠ []) :
    (db.update id doc_fields).1 = .error (.keyError (Val.vId i)) := by
  have hfe : (pop_experiment_id (dictNorm (doc_fields.getD []))).isEmpty = false := by
    cases hcase : pop_experiment_id (dictNorm (doc_fields.getD [])) with
    | nil => exact absurd hcase hne
    | cons a l => rfl
  unfold MLDB.update
  rw [hid]
  dsimp only [validate_experiment_doc]
  rw [hfe]
  unfold MLDB._update
  rw [show (MLDB.ensure_indexes db).collection = db.collection from rfl,
    updateOne_no_match _ _ _ hnone]
  rfl

/-- Witness for the amended C2 theorem at a concrete store. -/
theorem update_notfound_witness :
    (MLDB.update ⟨[], 0, false⟩ (ExpId.valid 3)
        (some [("x", Val.vBool true)])).1 = .error (.keyError (Val.vId 3)) :=
  update_notfound _ _ 3 _ rfl (by simp) (by decide)

/-- C3: an update whose field set is empty after identifier stripping and
validation returns successfully and leaves every stored document
unchanged. -/
theorem update_empty_noop (db : MLDB) (id : ExpId) (i : Nat)
    (doc_fields : Option Doc)
    (hid : validate_experiment_id id = .ok i)
    (hempty : pop_experiment_id (dictNorm (doc_fields.getD [])) = []) :
    (db.update id doc_fields).1 = .ok ()
    ∧ (db.update id doc_fields).2.collection = db.collection := by
  unfold MLDB.update
  rw [hid]
  dsimp only [validate_experiment_doc]
  rw [hempty]
  exact ⟨rfl, rfl⟩

/-- Witness for the C3 theorem at a concrete store. -/
theorem update_empty_noop_witness :
    (MLDB.update ⟨[[("_id", Val.vId 0)]], 1, false⟩ (ExpId.valid 7)
        (some [("id", Val.vId 9)])).1 = .ok ()
    ∧ (MLDB.update ⟨[[("_id", Val.vId 0)]], 1, false⟩ (ExpId.valid 7)
        (some [("id", Val.vId 9)])).2.collection = [[("_id", Val.vId 0)]] :=
  update_empty_noop _ _ 7 _ rfl (by decide)

/-- C10: create stores the document under the name passed as argument,
discarding any name value from the field map: the inserted document's name
field always equals the argument. -/
theorem create_name_from_argument (db : MLDB) (now : Nat) (name : String)
    (doc_fields : Option Doc) :
    ∃ d : Doc, (db.create now name doc_fields).2.collection
        = db.collection ++ [d]
      ∧ dlookup d "name" = some (Val.vStr name) := by
  unfold MLDB.create
  dsimp only [validate_experiment_doc]
  split_ifs <;> exact ⟨_, rfl, by simp [dlookup_dset]⟩

theorem mapM_validate_of_malformed (l : List ExpId)
    (h : ExpId.malformed ∈ l) :
    validateIds l = .error .invalidIdentifier := by
  induction l with
  | nil => cases h
  | cons a rest ih =>
    cases a with
    | malformed => rfl
    | valid n =>
      have hr : ExpId.malformed ∈ rest := by
        rcases List.mem_cons.mp h with h1 | h1
        · cases h1
        · exact h1
      show (do
        let ns ← validateIds rest
        pure (n :: ns) : Except Err (List Nat)) = .error .invalidIdentifier
      rw [ih hr]
      rfl

/-- C9: complete_deletion with any malformed identifier in the list raises
InvalidIdentifier and performs no deletion: every identifier is validated
(while the Python set of ids is built) before any deletion task runs, so
the store is unchanged. -/
theorem complete_deletion_validates_first (db : MLDB)
    (id_list : List ExpId) (hbad : ExpId.malformed ∈ id_list) :
    db.complete_deletion id_list = (.error .invalidIdentifier, db) := by
  unfold MLDB.complete_deletion
  rw [mapM_validate_of_malformed id_list hbad]

/-- Witness for the C9 theorem at a concrete store and identifier list. -/
theorem complete_deletion_validates_first_witness :
    MLDB.complete_deletion ⟨[[("_id", Val.vId 1)]], 2, false⟩
        [ExpId.valid 1, ExpId.malformed]
      = (.error .invalidIdentifier, ⟨[[("_id", Val.vId 1)]], 2, false⟩) :=
  complete_deletion_validates_first _ _ (by decide)

/-- C5: set_finished rejects any status outside COMPLETED and FAILED with
the ValueError as its first action, before validation, index ensurance or
any database operation, returning the store unchanged; for an accepted
status it forcibly sets stop_time and heartbeat to the current time and
status to the given value on the matched non-deleted document. -/
theorem set_finished_props (db : MLDB) (now : Nat) (idv : Val)
    (status : String) (doc_fields : Option Doc) :
    (¬ (status = "COMPLETED" ∨ status = "FAILED") →
      db.set_finished now idv status doc_fields = (.error .valueError, db))
    ∧ ((status = "COMPLETED" ∨ status = "FAILED") →
      (∃ d ∈ db.collection, matchesIdAlive idv d = true) →
      (db.set_finished now idv status doc_fields).1 = .ok ()
      ∧ ∃ d' ∈ (db.set_finished now idv status doc_fields).2.collection,
          dlookup d' "stop_time" = some (Val.vTime now)
          ∧ dlookup d' "heartbeat" = some (Val.vTime now)
          ∧ dlookup d' "status" = some (Val.vStr status)) := by
  constructor
  · intro h
    unfold MLDB.set_finished
    rw [if_pos h]
  · intro hs hex
    have heq : db.set_finished now idv status doc_fields
        = MLDB._update db.ensure_indexes idv
            (dset (dset (dset (validate_experiment_doc
                (pop_experiment_id (dictNorm (doc_fields.getD []))))
              "stop_time" (Val.vTime now))
              "heartbeat" (Val.vTime now))
              "status" (Val.vStr status)) := by
      unfold MLDB.set_finished
      rw [if_neg (not_not_intro hs)]
    have hnd : dkeysNodup (dset (dset (dset (validate_experiment_doc
        (pop_experiment_id (dictNorm (doc_fields.getD []))))
        "stop_time" (Val.vTime now)) "heartbeat" (Val.vTime now))
        "status" (Val.vStr status)) := by
      refine dkeysNodup_dset _ _ _ (dkeysNodup_dset _ _ _ (dkeysNodup_dset _ _ _ ?_))
      dsimp only [validate_experiment_doc]
      unfold pop_experiment_id
      exact dkeysNodup_dpop _ _ (dkeysNodup_dpop _ _ (dkeysNodup_dictNorm _))
    have hst : dlookup (dset (dset (dset (validate_experiment_doc
        (pop_experiment_id (dictNorm (doc_fields.getD []))))
        "stop_time" (Val.vTime now)) "heartbeat" (Val.vTime now))
        "status" (Val.vStr status)) "status" = some (Val.vStr status) := by
      rw [dlookup_dset, if_pos rfl]
    have hhb : dlookup (dset (dset (dset (validate_experiment_doc
        (pop_experiment_id (dictNorm (doc_fields.getD []))))
        "stop_time" (Val.vTime now)) "heartbeat" (Val.vTime now))
        "status" (Val.vStr status)) "heartbeat" = some (Val.vTime now) := by
      rw [dlookup_dset, if_neg (by decide), dlookup_dset, if_pos rfl]
    have hsp : dlookup (dset (dset (dset (validate_experiment_doc
        (pop_experiment_id (dictNorm (doc_fields.getD []))))
        "stop_time" (Val.vTime now)) "heartbeat" (Val.vTime now))
        "status" (Val.vStr status)) "stop_time" = some (Val.vTime now) := by
      rw [dlookup_dset, if_neg (by decide), dlookup_dset, if_neg (by decide),
        dlookup_dset, if_pos rfl]
    obtain ⟨h1, d0, hd0, hp0, hmem⟩ := updateOne_of_match (matchesIdAlive idv)
      (dset (dset (dset (validate_experiment_doc
        (pop_experiment_id (dictNorm (doc_fields.getD []))))
        "stop_time" (Val.vTime now)) "heartbeat" (Val.vTime now))
        "status" (Val.vStr status))
      db.ensure_indexes.collection (by simpa using hex)
    rw [heq]
    unfold MLDB._update
    dsimp only
    rw [h1, if_neg (show ¬ (1 : Nat) < 1 by decide)]
    refine ⟨rfl, applySet (dset (dset (dset (validate_experiment_doc
        (pop_experiment_id (dictNorm (doc_fields.getD []))))
        "stop_time" (Val.vTime now)) "heartbeat" (Val.vTime now))
        "status" (Val.vStr status)) d0, ?_, ?_, ?_, ?_⟩
    · simpa using hmem
    · exact dlookup_applySet_some _ _ _ _ hnd hsp
    · exact dlookup_applySet_some _ _ _ _ hnd hhb
    · exact dlookup_applySet_some _ _ _ _ hnd hst

/-- Witness for the C5 theorem: a rejected status and an accepted one. -/
theorem set_finished_props_witness :
    MLDB.set_finished ⟨[[("_id", Val.vId 1)]], 2, false⟩ 5 (Val.vId 1)
        "RUNNING" none
      = (.error .valueError, ⟨[[("_id", Val.vId 1)]], 2, false⟩)
    ∧ (MLDB.set_finished ⟨[[("_id", Val.vId 1)]], 2, false⟩ 5 (Val.vId 1)
        "COMPLETED" none).1 = .ok () :=
  ⟨(set_finished_props _ _ _ _ _).1 (by decide),
   ((set_finished_props _ _ _ _ _).2 (by decide)
     ⟨[("_id", Val.vId 1)], by decide, by decide⟩).1⟩

/-! Lemmas about hard deletion. -/

theorem deleteOne_no_match (p : Doc → Bool) (coll : List Doc)
    (h : ∀ d ∈ coll, p d = false) : deleteOne p coll = (0, coll) := by
  induction coll with
  | nil => rfl
  | cons d rest ih =>
    have hd := h d (by simp)
    have hr := ih fun d' hd' => h d' (by simp [hd'])
    simp [deleteOne, hd, hr]

theorem deleteOne_sublist (p : Doc → Bool) (coll : List Doc) :
    (deleteOne p coll).2.Sublist coll := by
  induction coll with
  | nil => simp [deleteOne]
  | cons d rest ih =>
    by_cases hp : p d = true
    · simp [deleteOne, hp]
    · rw [show deleteOne p (d :: rest)
          = ((deleteOne p rest).1, d :: (deleteOne p rest).2) by
        simp [deleteOne, hp]]
      exact List.Sublist.cons₂ d ih

theorem deleteOne_count (p : Doc → Bool) (coll : List Doc) :
    (deleteOne p coll).1 + (deleteOne p coll).2.length = coll.length := by
  induction coll with
  | nil => rfl
  | cons d rest ih =>
    by_cases hp : p d = true
    · rw [show deleteOne p (d :: rest) = (1, rest) by simp [deleteOne, hp]]
      simp only [List.length_cons]
      omega
    · rw [show deleteOne p (d :: rest)
          = ((deleteOne p rest).1, d :: (deleteOne p rest).2) by
        simp [deleteOne, hp]]
      simp only [List.length_cons]
      omega

/-- No document of the collection carries the given object id. -/
def noId (n : Nat) (coll : List Doc) : Prop :=
  ∀ d ∈ coll, dlookup d "_id" ≠ some (Val.vId n)

theorem noId_of_sublist (n : Nat) (c₁ c₂ : List Doc)
    (hsub : c₁.Sublist c₂) (h : noId n c₂) : noId n c₁ :=
  fun d hd => h d (hsub.subset hd)

theorem deleteOne_removes_unique (n : Nat) (coll : List Doc)
    (huniq : (coll.map fun d => dlookup d "_id").Nodup) :
    noId n (deleteOne (fun d => dlookup d "_id" == some (Val.vId n)) coll).2 := by
  induction coll with
  | nil => intro d hd; cases hd
  | cons d rest ih =>
    rw [List.map_cons, List.nodup_cons] at huniq
    by_cases hp : (dlookup d "_id" == some (Val.vId n)) = true
    · rw [show deleteOne (fun d => dlookup d "_id" == some (Val.vId n)) (d :: rest)
          = (1, rest) by simp [deleteOne, hp]]
      intro d' hd' hcontra
      have hd0 : dlookup d "_id" = some (Val.vId n) := by simpa using hp
      have hmem : dlookup d' "_id" ∈ List.map (fun d => dlookup d "_id") rest :=
        List.mem_map_of_mem _ hd'
      rw [hcontra, ← hd0] at hmem
      exact huniq.1 hmem
    · rw [show deleteOne (fun d => dlookup d "_id" == some (Val.vId n)) (d :: rest)
          = ((deleteOne (fun d => dlookup d "_id" == some (Val.vId n)) rest).1,
             d :: (deleteOne (fun d => dlookup d "_id" == some (Val.vId n)) rest).2) by
        simp [deleteOne, hp]]
      intro d' hd' hcontra
      rcases List.mem_cons.mp hd' with h1 | h1
      · subst h1
        exact hp (by simpa using hcontra)
      · exact ih huniq.2 d' h1 hcontra

theorem deleteAll_sublist (ids : List Nat) (coll : List Doc) :
    (deleteAll ids coll).2.Sublist coll := by
  induction ids generalizing coll with
  | nil => simp [deleteAll]
  | cons i rest ih =>
    exact (ih _).trans (deleteOne_sublist _ coll)

theorem deleteAll_count (ids : List Nat) (coll : List Doc) :
    (deleteAll ids coll).1 + (deleteAll ids coll).2.length = coll.length := by
  induction ids generalizing coll with
  | nil => simp [deleteAll]
  | cons i rest ih =>
    have h1 := deleteOne_count (fun d => dlookup d "_id" == some (Val.vId i)) coll
    have h2 := ih (deleteOne (fun d => dlookup d "_id" == some (Val.vId i)) coll).2
    rw [show deleteAll (i :: rest) coll
        = ((deleteOne (fun d => dlookup d "_id" == some (Val.vId i)) coll).1
            + (deleteAll rest (deleteOne
                (fun d => dlookup d "_id" == some (Val.vId i)) coll).2).1,
           (deleteAll rest (deleteOne
                (fun d => dlookup d "_id" == some (Val.vId i)) coll).2).2) from rfl]
    dsimp only
    omega

theorem deleteAll_no_match (ids : List Nat) (coll : List Doc)
    (h : ∀ n ∈ ids, noId n coll) : deleteAll ids coll = (0, coll) := by
  induction ids with
  | nil => rfl
  | cons i rest ih =>
    have hi : noId i coll := h i (by simp)
    have hdel : deleteOne (fun d => dlookup d "_id" == some (Val.vId i)) coll
        = (0, coll) := by
      refine deleteOne_no_match _ coll fun d hd => ?_
      have := hi d hd
      simpa using this
    rw [show deleteAll (i :: rest) coll
        = ((deleteOne (fun d => dlookup d "_id" == some (Val.vId i)) coll).1
            + (deleteAll rest (deleteOne
                (fun d => dlookup d "_id" == some (Val.vId i)) coll).2).1,
           (deleteAll rest (deleteOne
                (fun d => dlookup d "_id" == some (Val.vId i)) coll).2).2) from rfl,
      hdel]
    have hr := ih fun n hn => h n (by simp [hn])
    dsimp only
    rw [hr]
    rfl

theorem deleteAll_removes_all (ids : List Nat) (coll : List Doc)
    (huniq : (coll.map fun d => dlookup d "_id").Nodup) :
    ∀ n ∈ ids, noId n (deleteAll ids coll).2 := by
  induction ids generalizing coll with
  | nil => intro n hn; cases hn
  | cons i rest ih =>
    intro n hn
    have hstep : (deleteAll (i :: rest) coll).2
        = (deleteAll rest (deleteOne
            (fun d => dlookup d "_id" == some (Val.vId i)) coll).2).2 := rfl
    have huniq' : ((deleteOne (fun d => dlookup d "_id" == some (Val.vId i))
        coll).2.map fun d => dlookup d "_id").Nodup :=
      huniq.sublist ((deleteOne_sublist _ coll).map _)
    rcases List.mem_cons.mp hn with h1 | h1
    · subst h1
      rw [hstep]
      exact noId_of_sublist _ _ _ (deleteAll_sublist rest _)
        (deleteOne_removes_unique n coll huniq)
    · rw [hstep]
      exact ih _ huniq' n h1

/-! Lemmas about deduplication, identifier validation and C6. -/

theorem mem_distinctAux (l : List Nat) (acc : List Nat) (n : Nat) :
    n ∈ distinctAux acc l ↔ n ∈ acc ∨ n ∈ l := by
  induction l generalizing acc with
  | nil => simp [distinctAux]
  | cons i rest ih =>
    by_cases hi : i ∈ acc
    · rw [show distinctAux acc (i :: rest) = distinctAux acc rest by
        simp [distinctAux, hi], ih]
      constructor
      · rintro (h | h)
        · exact Or.inl h
        · exact Or.inr (List.mem_cons_of_mem _ h)
      · rintro (h | h)
        · exact Or.inl h
        · rcases List.mem_cons.mp h with h1 | h1
          · exact Or.inl (h1 ▸ hi)
          · exact Or.inr h1
    · rw [show distinctAux acc (i :: rest) = distinctAux (acc ++ [i]) rest by
        simp [distinctAux, hi], ih]
      simp [List.mem_append, List.mem_cons]
      tauto

theorem distinctAux_append (l₁ l₂ acc : List Nat) :
    distinctAux acc (l₁ ++ l₂) = distinctAux (distinctAux acc l₁) l₂ := by
  induction l₁ generalizing acc with
  | nil => rfl
  | cons i rest ih =>
    by_cases hi : i ∈ acc
    · rw [show (i :: rest) ++ l₂ = i :: (rest ++ l₂) from rfl,
        show distinctAux acc (i :: (rest ++ l₂)) = distinctAux acc (rest ++ l₂) by
          simp [distinctAux, hi],
        show distinctAux acc (i :: rest) = distinctAux acc rest by
          simp [distinctAux, hi]]
      exact ih acc
    · rw [show (i :: rest) ++ l₂ = i :: (rest ++ l₂) from rfl,
        show distinctAux acc (i :: (rest ++ l₂))
            = distinctAux (acc ++ [i]) (rest ++ l₂) by
          simp [distinctAux, hi],
        show distinctAux acc (i :: rest) = distinctAux (acc ++ [i]) rest by
          simp [distinctAux, hi]]
      exact ih (acc ++ [i])

theorem distinctAux_absorb (l acc : List Nat) (h : ∀ i ∈ l, i ∈ acc) :
    distinctAux acc l = acc := by
  induction l with
  | nil => rfl
  | cons i rest ih =>
    have hi : i ∈ acc := h i (by simp)
    rw [show distinctAux acc (i :: rest) = distinctAux acc rest by
      simp [distinctAux, hi]]
    exact ih fun j hj => h j (by simp [hj])

theorem distinctIds_self_append (l : List Nat) :
    distinctIds (l ++ l) = distinctIds l := by
  unfold distinctIds
  rw [distinctAux_append]
  exact distinctAux_absorb _ _ fun i hi => (mem_distinctAux l [] i).mpr (Or.inr hi)

theorem validateIds_cons_valid (n : Nat) (rest : List ExpId) :
    validateIds (ExpId.valid n :: rest)
      = match validateIds rest with
        | .ok ns => .ok (n :: ns)
        | .error e => .error e := by
  show (do
    let ns ← validateIds rest
    pure (n :: ns) : Except Err (List Nat)) = _
  cases validateIds rest <;> rfl

theorem validateIds_append (l₁ l₂ : List ExpId) (ns₁ ns₂ : List Nat)
    (h₁ : validateIds l₁ = .ok ns₁) (h₂ : validateIds l₂ = .ok ns₂) :
    validateIds (l₁ ++ l₂) = .ok (ns₁ ++ ns₂) := by
  induction l₁ generalizing ns₁ with
  | nil =>
    rw [show validateIds [] = Except.ok ([] : List Nat) from rfl] at h₁
    obtain rfl := Except.ok.inj h₁
    simpa using h₂
  | cons i rest ih =>
    cases i with
    | malformed =>
      rw [show validateIds (ExpId.malformed :: rest)
          = Except.error Err.invalidIdentifier from rfl] at h₁
      cases h₁
    | valid n =>
      rw [validateIds_cons_valid] at h₁
      cases hr : validateIds rest with
      | error e => rw [hr] at h₁; cases h₁
      | ok ms =>
        rw [hr] at h₁
        obtain rfl := Except.ok.inj h₁
        rw [show (ExpId.valid n :: rest) ++ l₂
            = ExpId.valid n :: (rest ++ l₂) from rfl,
          validateIds_cons_valid, ih ms hr]
        rfl

theorem complete_deletion_eq (db : MLDB) (l : List ExpId) (ns : List Nat)
    (hv : validateIds l = .ok ns) :
    db.complete_deletion l
      = (.ok (deleteAll (distinctIds ns) db.collection).1,
         { db.ensure_indexes with
             collection := (deleteAll (distinctIds ns) db.collection).2 }) := by
  unfold MLDB.complete_deletion
  rw [hv]
  rfl

/-- C6: complete_deletion deduplicates its input and returns exactly the
number of documents it removed (identifiers with no remaining document
contribute zero: the count always equals the drop in collection size, and
a duplicated input list behaves as the original); over a collection with
unique primary keys it is idempotent: an immediate second call with the
same identifier list removes nothing and returns 0. -/
theorem complete_deletion_props (db : MLDB) (id_list : List ExpId)
    (ns : List Nat) (hv : validateIds id_list = .ok ns)
    (huniq : (db.collection.map fun d => dlookup d "_id").Nodup) :
    ((db.complete_deletion id_list).1
        = .ok (db.collection.length
            - (db.complete_deletion id_list).2.collection.length))
    ∧ db.complete_deletion (id_list ++ id_list) = db.complete_deletion id_list
    ∧ ((db.complete_deletion id_list).2.complete_deletion id_list).1 = .ok 0
    ∧ ((db.complete_deletion id_list).2.complete_deletion id_list).2.collection
        = (db.complete_deletion id_list).2.collection := by
  have heq := complete_deletion_eq db id_list ns hv
  have hno : deleteAll (distinctIds ns)
      (deleteAll (distinctIds ns) db.collection).2
      = (0, (deleteAll (distinctIds ns) db.collection).2) :=
    deleteAll_no_match _ _ (deleteAll_removes_all _ _ huniq)
  refine ⟨?_, ?_, ?_, ?_⟩
  · rw [heq]
    dsimp only
    have hc := deleteAll_count (distinctIds ns) db.collection
    have hsub : (deleteAll (distinctIds ns) db.collection).1
        = db.collection.length
          - (deleteAll (distinctIds ns) db.collection).2.length := by omega
    rw [hsub]
  · rw [heq, complete_deletion_eq db (id_list ++ id_list) (ns ++ ns)
      (validateIds_append _ _ _ _ hv hv), distinctIds_self_append]
  · rw [heq, complete_deletion_eq _ id_list ns hv]
    dsimp only
    rw [hno]
  · rw [heq, complete_deletion_eq _ id_list ns hv]
    dsimp only
    rw [hno]

/-- Witness for the C6 theorem: two stored documents, a duplicated input
list; the second call deletes nothing. -/
theorem complete_deletion_props_witness :
    ((MLDB.complete_deletion
        ⟨[[("_id", Val.vId 1)], [("_id", Val.vId 2)]], 3, false⟩
        [ExpId.valid 1, ExpId.valid 1, ExpId.valid 5]).2.complete_deletion
        [ExpId.valid 1, ExpId.valid 1, ExpId.valid 5]).1 = .ok 0 :=
  (complete_deletion_props
    ⟨[[("_id", Val.vId 1)], [("_id", Val.vId 2)]], 3, false⟩
    [ExpId.valid 1, ExpId.valid 1, ExpId.valid 5]
    [1, 1, 5] rfl (by decide)).2.2.1

/-! Lemmas for create followed by get, and C4. -/

theorem get_eq (db : MLDB) (i : Nat) :
    db.get (ExpId.valid i)
      = .ok (from_database_experiment_doc
          (findOne (matchesIdAlive (Val.vId i)) db.collection)) := rfl

theorem findOne_append_last (p : Doc → Bool) (coll : List Doc) (d : Doc)
    (h : ∀ d' ∈ coll, p d' = false) (hd : p d = true) :
    findOne p (coll ++ [d]) = some d := by
  induction coll with
  | nil => simp [findOne, hd]
  | cons a rest ih =>
    have ha := h a (by simp)
    have ih' := ih fun d' hd' => h d' (by simp [hd'])
    simpa [findOne, List.find?_cons, ha] using ih'

theorem findOne_fresh_append (coll : List Doc) (nd : Doc) (i : Nat)
    (hfresh : ∀ d ∈ coll, dlookup d "_id" ≠ some (Val.vId i))
    (hid : dlookup nd "_id" = some (Val.vId i))
    (hdel : dlookup nd "deleted" ≠ some (Val.vBool true)) :
    findOne (matchesIdAlive (Val.vId i)) (coll ++ [nd]) = some nd := by
  refine findOne_append_last _ _ _ (fun d' hd' => ?_) ?_
  · have := hfresh d' hd'
    simp [matchesIdAlive, this]
  · simp [matchesIdAlive, hid, hdel]

/-- C4 fails as stated: a creation input may itself carry a status (the
schema of §3 allows any of RUNNING, COMPLETED, FAILED), and create keeps
it; the subsequent get then reports that status rather than RUNNING. -/
theorem create_get_counterexample :
    (MLDB.create ⟨[], 0, false⟩ 100 "e"
        (some [("status", Val.vStr "COMPLETED")])).1 = 0
    ∧ (MLDB.create ⟨[], 0, false⟩ 100 "e"
        (some [("status", Val.vStr "COMPLETED")])).2.get (ExpId.valid 0)
      = .ok (some [("status", Val.vStr "COMPLETED"), ("name", Val.vStr "e"),
          ("start_time", Val.vTime 100), ("heartbeat", Val.vTime 100),
          ("id", Val.vId 0)])
    ∧ dlookup [("status", Val.vStr "COMPLETED"), ("name", Val.vStr "e"),
          ("start_time", Val.vTime 100), ("heartbeat", Val.vTime 100),
          ("id", Val.vId 0)] "status" ≠ some (Val.vStr "RUNNING") := by
  refine ⟨rfl, rfl, by decide⟩

theorem insert_get_props (coll : List Doc) (g : Doc) (i : Nat)
    (hfresh : ∀ d ∈ coll, dlookup d "_id" ≠ some (Val.vId i))
    (hdel : dlookup g "deleted" = none) :
    from_database_experiment_doc
        (findOne (matchesIdAlive (Val.vId i))
          (coll ++ [dset g "_id" (Val.vId i)]))
      = some (dset (dpop (dset g "_id" (Val.vId i)) "_id") "id" (Val.vId i))
    ∧ ∀ k, k ≠ "id" → k ≠ "_id" →
        dlookup (dset (dpop (dset g "_id" (Val.vId i)) "_id") "id" (Val.vId i)) k
          = dlookup g k := by
  have hid : dlookup (dset g "_id" (Val.vId i)) "_id" = some (Val.vId i) := by
    rw [dlookup_dset, if_pos rfl]
  constructor
  · rw [findOne_fresh_append coll _ i hfresh hid
      (by rw [dlookup_dset, if_neg (by decide), hdel]; simp)]
    show some (from_database_doc (dset g "_id" (Val.vId i))) = _
    rw [from_database_doc_of_id _ _ hid]
  · intro k hk1 hk2
    rw [dlookup_dset, if_neg (fun h => hk1 h.symm), dlookup_dpop,
      if_neg (fun h => hk2 h.symm), dlookup_dset,
      if_neg (fun h => hk2 h.symm)]

/-- C4 (amended): create strips any caller-supplied identifier field,
defaults start_time to the current UTC time if absent, heartbeat to
start_time if absent, status to RUNNING if absent, and returns the
identifier the database assigns.  When the stripped, validated creation
fields supply none of status, heartbeat and deleted themselves (the claim
as frozen asserted the get outcome for every creation input, but
caller-supplied values for these fields survive create), a subsequent get
on the returned identifier finds a document whose status is RUNNING, whose
heartbeat equals its (present) start_time, and which carries no deleted
flag; the start_time is the current time when the caller supplied none. -/
theorem create_get_props (db : MLDB) (now : Nat) (name : String)
    (doc_fields : Option Doc)
    (hfresh : ∀ d ∈ db.collection, dlookup d "_id" ≠ some (Val.vId db.nextId))
    (hst : dlookup (pop_experiment_id (dictNorm (doc_fields.getD []))) "status"
      = none)
    (hhb : dlookup (pop_experiment_id (dictNorm (doc_fields.getD []))) "heartbeat"
      = none)
    (hdl : dlookup (pop_experiment_id (dictNorm (doc_fields.getD []))) "deleted"
      = none) :
    (db.create now name doc_fields).1 = db.nextId
    ∧ ∃ d : Doc,
        (db.create now name doc_fields).2.get (ExpId.valid db.nextId)
          = .ok (some d)
        ∧ dlookup d "status" = some (Val.vStr "RUNNING")
        ∧ dlookup d "heartbeat" = dlookup d "start_time"
        ∧ (dlookup d "heartbeat").isSome
        ∧ dlookup d "deleted" = none
        ∧ (dlookup (pop_experiment_id (dictNorm (doc_fields.getD [])))
              "start_time" = none
            → dlookup d "start_time" = some (Val.vTime now)) := by
  unfold MLDB.create
  dsimp only [validate_experiment_doc]
  refine ⟨rfl, ?_⟩
  rw [get_eq]
  simp only [ensure_indexes_collection, ensure_indexes_nextId]
  generalize hbase : pop_experiment_id (dictNorm (doc_fields.getD [])) = base
    at hst hhb hdl ⊢
  by_cases hstb : (dlookup base "start_time").isSome
  · obtain ⟨st, hstv⟩ := Option.isSome_iff_exists.mp hstb
    have e1 : dlookup (dset base "name" (Val.vStr name)) "start_time"
        = some st := by
      rw [dlookup_dset, if_neg (by decide)]; exact hstv
    have c1 : (dlookup (dset base "name" (Val.vStr name)) "start_time").isSome
        = true := by rw [e1]; rfl
    rw [if_pos c1]
    have c2 : ¬ ((dlookup (dset base "name" (Val.vStr name))
        "heartbeat").isSome = true) := by
      rw [dlookup_dset, if_neg (by decide), hhb]; simp
    rw [if_neg c2, e1]
    simp only [Option.getD_some]
    have c3 : ¬ ((dlookup (dset (dset base "name" (Val.vStr name))
        "heartbeat" st) "status").isSome = true) := by
      rw [dlookup_dset, if_neg (by decide), dlookup_dset, if_neg (by decide),
        hst]
      simp
    rw [if_neg c3]
    have hgdel : dlookup (dset (dset (dset base "name" (Val.vStr name))
        "heartbeat" st) "status" (Val.vStr "RUNNING")) "deleted" = none := by
      rw [dlookup_dset, if_neg (by decide), dlookup_dset, if_neg (by decide),
        dlookup_dset, if_neg (by decide)]
      exact hdl
    obtain ⟨hfind, hlk⟩ := insert_get_props db.collection
      (dset (dset (dset base "name" (Val.vStr name)) "heartbeat" st)
        "status" (Val.vStr "RUNNING")) db.nextId hfresh hgdel
    refine ⟨_, by rw [hfind], ?_, ?_, ?_, ?_, ?_⟩
    · rw [hlk "status" (by decide) (by decide), dlookup_dset, if_pos rfl]
    · rw [hlk "heartbeat" (by decide) (by decide),
        hlk "start_time" (by decide) (by decide),
        dlookup_dset, if_neg (by decide), dlookup_dset, if_pos rfl,
        dlookup_dset, if_neg (by decide), dlookup_dset, if_neg (by decide), e1]
    · rw [hlk "heartbeat" (by decide) (by decide),
        dlookup_dset, if_neg (by decide), dlookup_dset, if_pos rfl]
      rfl
    · rw [hlk "deleted" (by decide) (by decide)]
      exact hgdel
    · intro habs
      rw [habs] at hstv
      cases hstv
  · have hstn : dlookup base "start_time" = none :=
      Option.not_isSome_iff_eq_none.mp hstb
    have c1 : ¬ ((dlookup (dset base "name" (Val.vStr name))
        "start_time").isSome = true) := by
      rw [dlookup_dset, if_neg (by decide), hstn]; simp
    rw [if_neg c1]
    have c2 : ¬ ((dlookup (dset (dset base "name" (Val.vStr name))
        "start_time" (Val.vTime now)) "heartbeat").isSome = true) := by
      rw [dlookup_dset, if_neg (by decide), dlookup_dset, if_neg (by decide),
        hhb]
      simp
    rw [if_neg c2]
    rw [show dlookup (dset (dset base "name" (Val.vStr name)) "start_time"
        (Val.vTime now)) "start_time" = some (Val.vTime now) by
      rw [dlookup_dset, if_pos rfl]]
    simp only [Option.getD_some]
    have c3 : ¬ ((dlookup (dset (dset (dset base "name" (Val.vStr name))
        "start_time" (Val.vTime now)) "heartbeat" (Val.vTime now))
        "status").isSome = true) := by
      rw [dlookup_dset, if_neg (by decide), dlookup_dset, if_neg (by decide),
        dlookup_dset, if_neg (by decide), hst]
      simp
    rw [if_neg c3]
    have hgdel : dlookup (dset (dset (dset (dset base "name" (Val.vStr name))
        "start_time" (Val.vTime now)) "heartbeat" (Val.vTime now))
        "status" (Val.vStr "RUNNING")) "deleted" = none := by
      rw [dlookup_dset, if_neg (by decide), dlookup_dset, if_neg (by decide),
        dlookup_dset, if_neg (by decide), dlookup_dset, if_neg (by decide)]
      exact hdl
    obtain ⟨hfind, hlk⟩ := insert_get_props db.collection
      (dset (dset (dset (dset base "name" (Val.vStr name))
        "start_time" (Val.vTime now)) "heartbeat" (Val.vTime now))
        "status" (Val.vStr "RUNNING")) db.nextId hfresh hgdel
    refine ⟨_, by rw [hfind], ?_, ?_, ?_, ?_, ?_⟩
    · rw [hlk "status" (by decide) (by decide), dlookup_dset, if_pos rfl]
    · rw [hlk "heartbeat" (by decide) (by decide),
        hlk "start_time" (by decide) (by decide),
        dlookup_dset, if_neg (by decide), dlookup_dset, if_pos rfl,
        dlookup_dset, if_neg (by decide), dlookup_dset, if_neg (by decide),
        dlookup_dset, if_pos rfl]
    · rw [hlk "heartbeat" (by decide) (by decide),
        dlookup_dset, if_neg (by decide), dlookup_dset, if_pos rfl]
      rfl
    · rw [hlk "deleted" (by decide) (by decide)]
      exact hgdel
    · intro _
      rw [hlk "start_time" (by decide) (by decide),
        dlookup_dset, if_neg (by decide), dlookup_dset, if_neg (by decide),
        dlookup_dset, if_pos rfl]

/-- Witness for the amended C4 theorem at a concrete store. -/
theorem create_get_props_witness :
    ((MLDB.create ⟨[[("_id", Val.vId 3)]], 7, false⟩ 42 "run"
        (some [("tags", Val.vStr "t")])).2.get (ExpId.valid 7)).isOk = true := by
  obtain ⟨-, d, hd, -⟩ := create_get_props ⟨[[("_id", Val.vId 3)]], 7, false⟩
    42 "run" (some [("tags", Val.vStr "t")])
    (by decide) (by decide) (by decide) (by decide)
  rw [hd]
  rfl

/-! Order lemmas for the sort comparator, and C7. -/

theorem cmpL_ne_gt_iff [LinearOrder α] (x y : α) :
    (cmpL x y ≠ .gt) ↔ x ≤ y := by
  unfold cmpL
  by_cases h1 : x < y
  · simp [h1, le_of_lt h1]
  · by_cases h2 : x = y
    · simp [h1, h2]
    · have h3 : y < x := lt_of_le_of_ne (le_of_not_lt h1) fun h => h2 h.symm
      simp [h1, h2, not_le.mpr h3]

/-- Payload order used to state the comparator characterization. -/
def vle : Val → Val → Prop
  | .vStr a, .vStr b => a ≤ b
  | .vId a, .vId b => a ≤ b
  | .vBool a, .vBool b => a ≤ b
  | .vTime a, .vTime b => a ≤ b
  | _, _ => True

theorem cmpVal_ne_gt_iff (a b : Val) :
    (cmpVal a b ≠ .gt)
      ↔ (valRank a < valRank b ∨ (valRank a = valRank b ∧ vle a b)) := by
  cases a <;> cases b <;>
    simp [cmpVal, vle, valRank, cmpL_ne_gt_iff]

theorem cmpVal_trans (a b c : Val) (h1 : cmpVal a b ≠ .gt)
    (h2 : cmpVal b c ≠ .gt) : cmpVal a c ≠ .gt := by
  rw [cmpVal_ne_gt_iff] at h1 h2 ⊢
  rcases h1 with h1 | ⟨h1e, h1v⟩
  · rcases h2 with h2 | ⟨h2e, h2v⟩
    · exact Or.inl (h1.trans h2)
    · exact Or.inl (h2e ▸ h1)
  · rcases h2 with h2 | ⟨h2e, h2v⟩
    · exact Or.inl (h1e ▸ h2)
    · refine Or.inr ⟨h1e.trans h2e, ?_⟩
      cases a <;> cases b <;> cases c <;>
        first
          | exact le_trans h1v h2v
          | trivial
          | simp [valRank] at h1e h2e

theorem cmpVal_total (a b : Val) :
    cmpVal a b ≠ .gt ∨ cmpVal b a ≠ .gt := by
  rw [cmpVal_ne_gt_iff, cmpVal_ne_gt_iff]
  cases a <;> cases b <;> simp [valRank, vle] <;> exact le_total _ _

theorem cmpOptVal_trans (x y z : Option Val) (h1 : cmpOptVal x y ≠ .gt)
    (h2 : cmpOptVal y z ≠ .gt) : cmpOptVal x z ≠ .gt := by
  cases x with
  | none => cases z <;> simp [cmpOptVal]
  | some a =>
    cases y with
    | none => exact absurd rfl h1
    | some b =>
      cases z with
      | none => exact absurd rfl h2
      | some c => exact cmpVal_trans a b c h1 h2

theorem cmpOptVal_total (x y : Option Val) :
    cmpOptVal x y ≠ .gt ∨ cmpOptVal y x ≠ .gt := by
  cases x with
  | none => exact Or.inl (by cases y <;> simp [cmpOptVal])
  | some a =>
    cases y with
    | none => exact Or.inr (by simp [cmpOptVal])
    | some b => exact cmpVal_total a b

theorem cmpBySpec_heartbeat (a b : Doc) :
    cmpBySpec [("heartbeat", (-1 : Int))] a b
      = cmpOptVal (dlookup b "heartbeat") (dlookup a "heartbeat") := by
  show (match (if (-1 : Int) < 0
      then cmpOptVal (dlookup b "heartbeat") (dlookup a "heartbeat")
      else cmpOptVal (dlookup a "heartbeat") (dlookup b "heartbeat")) with
    | .eq => cmpBySpec [] a b
    | o => o) = _
  rw [if_pos (by norm_num)]
  cases cmpOptVal (dlookup b "heartbeat") (dlookup a "heartbeat") <;> rfl

theorem docLe_hb_iff (a b : Doc) :
    docLe [("heartbeat", (-1 : Int))] a b = true
      ↔ cmpOptVal (dlookup b "heartbeat") (dlookup a "heartbeat") ≠ .gt := by
  rw [docLe, decide_eq_true_iff, cmpBySpec_heartbeat]

theorem sortDocs_hb_sorted (docs : List Doc) :
    (sortDocs [("heartbeat", (-1 : Int))] docs).Pairwise
      (fun a b =>
        cmpOptVal (dlookup b "heartbeat") (dlookup a "heartbeat") ≠ .gt) := by
  have h := @List.sorted_mergeSort Doc (docLe [("heartbeat", (-1 : Int))])
    (fun a b c hab hbc => (docLe_hb_iff a c).mpr
      (cmpOptVal_trans _ _ _ ((docLe_hb_iff b c).mp hbc)
        ((docLe_hb_iff a b).mp hab)))
    (fun a b => by
      rcases cmpOptVal_total (dlookup b "heartbeat") (dlookup a "heartbeat")
        with h | h
      · rw [Bool.or_eq_true]
        exact Or.inl ((docLe_hb_iff a b).mpr h)
      · rw [Bool.or_eq_true]
        exact Or.inr ((docLe_hb_iff b a).mpr h))
    docs
  exact h.imp fun hab => (docLe_hb_iff _ _).mp hab

theorem applySkip_sublist (skip : Option Nat) (docs : List Doc) :
    (applySkip skip docs).Sublist docs := by
  cases skip with
  | none => exact List.Sublist.refl _
  | some s =>
    by_cases hs : s = 0
    · simp [applySkip, hs]
    · simp only [applySkip, hs, if_false]
      exact List.drop_sublist s docs

theorem applyLimit_sublist (limit : Option Nat) (docs : List Doc) :
    (applyLimit limit docs).Sublist docs := by
  cases limit with
  | none => exact List.Sublist.refl _
  | some l =>
    by_cases hl : l = 0
    · simp [applyLimit, hl]
    · simp only [applyLimit, hl, if_false]
      exact List.take_sublist l docs

theorem dlookup_from_database_doc (d : Doc) (k : String)
    (h1 : k ≠ "id") (h2 : k ≠ "_id") :
    dlookup (from_database_doc d) k = dlookup d k := by
  cases hv : dlookup d "_id" with
  | none => rw [from_database_doc_of_none d hv]
  | some v =>
    rw [from_database_doc_of_id d v hv, dlookup_dset,
      if_neg (fun h => h1 h.symm), dlookup_dpop, if_neg (fun h => h2 h.symm)]

theorem mem_dset_self (d : DocOf α) (k : String) (v : α) :
    (k, v) ∈ dset d k v := by
  induction d with
  | nil => simp [dset]
  | cons p rest ih =>
    obtain ⟨k₀, v₀⟩ := p
    by_cases h₀ : k₀ = k
    · subst h₀
      rw [show dset ((k₀, v₀) :: rest) k₀ v = (k₀, v) :: rest by simp [dset]]
      simp
    · rw [show dset ((k₀, v₀) :: rest) k v = (k₀, v₀) :: dset rest k v by
        simp [dset, h₀]]
      exact List.mem_cons_of_mem _ ih

theorem matchFilter_pair (f : Filter) (d : Doc) (k : String) (fv : FVal)
    (hmem : (k, fv) ∈ f) (h : matchFilter f d = true) :
    matchFVal d k fv = true := by
  unfold matchFilter at h
  rw [List.all_eq_true] at h
  exact h (k, fv) hmem

/-- C7: iter_docs with include_deleted false never yields a document whose
deleted flag is true, for every filter, skip and limit (the query filter
is augmented with the not-equal constraint on the deleted field); when
sort_by is not given the yielded documents are in descending order of
their heartbeat values; and with include_deleted true a soft-deleted
document can be yielded, as the concrete store in the last conjunct
shows. -/
theorem iter_docs_props (db : MLDB) (filter : Option Filter)
    (skip limit : Option Nat) (sort_by : Option (List (String × Int)))
    (incl : Bool) :
    (∀ d ∈ db.iter_docs filter skip limit sort_by false,
        dlookup d "deleted" ≠ some (Val.vBool true))
    ∧ (db.iter_docs filter skip limit none incl).Pairwise
        (fun a b =>
          cmpOptVal (dlookup b "heartbeat") (dlookup a "heartbeat") ≠ .gt)
    ∧ ∃ d ∈ MLDB.iter_docs
          ⟨[[("_id", Val.vId 2), ("deleted", Val.vBool true),
             ("heartbeat", Val.vTime 1)]], 3, false⟩
          none none none none true,
        dlookup d "deleted" = some (Val.vBool true) := by
  refine ⟨?_, ?_, ?_⟩
  · intro d hd
    unfold MLDB.iter_docs at hd
    dsimp only at hd
    rw [if_neg (by simp)] at hd
    rw [List.mem_map] at hd
    obtain ⟨d0, hd0, rfl⟩ := hd
    have hd1 : d0 ∈ sortDocs (sort_by.getD [("heartbeat", (-1 : Int))])
        (db.collection.filter (matchFilter
          (dset (to_database_doc (validate_experiment_doc
            (dictNorm (filter.getD [])))) "deleted"
            (FVal.ne (Val.vBool true))))) :=
      (applySkip_sublist skip _).subset ((applyLimit_sublist limit _).subset hd0)
    have hd2 : d0 ∈ db.collection.filter (matchFilter
        (dset (to_database_doc (validate_experiment_doc
          (dictNorm (filter.getD [])))) "deleted"
          (FVal.ne (Val.vBool true)))) := by
      unfold sortDocs at hd1
      rwa [List.mem_mergeSort] at hd1
    have hmatch := (List.mem_filter.mp hd2).2
    have hfv := matchFilter_pair _ _ "deleted" (FVal.ne (Val.vBool true))
      (mem_dset_self _ _ _) hmatch
    rw [dlookup_from_database_doc d0 "deleted" (by decide) (by decide)]
    simpa [matchFVal] using hfv
  · unfold MLDB.iter_docs
    dsimp only [Option.getD]
    rw [List.pairwise_map]
    have h0 := sortDocs_hb_sorted
      (db.collection.filter (matchFilter
        (if incl
          then to_database_doc (validate_experiment_doc
            (dictNorm (filter.getD [])))
          else dset (to_database_doc (validate_experiment_doc
            (dictNorm (filter.getD [])))) "deleted"
            (FVal.ne (Val.vBool true)))))
    have h1 := List.Pairwise.sublist (applySkip_sublist skip _) h0
    have h2 := List.Pairwise.sublist (applyLimit_sublist limit _) h1
    refine h2.imp fun hab => ?_
    rwa [dlookup_from_database_doc _ "heartbeat" (by decide) (by decide),
      dlookup_from_database_doc _ "heartbeat" (by decide) (by decide)]
  · have h1 : MLDB.iter_docs
        ⟨[[("_id", Val.vId 2), ("deleted", Val.vBool true),
           ("heartbeat", Val.vTime 1)]], 3, false⟩
        none none none none true
        = [[("deleted", Val.vBool true), ("heartbeat", Val.vTime 1),
            ("id", Val.vId 2)]] := by
      show List.map from_database_doc (applyLimit none (applySkip none
        ((List.filter (matchFilter (to_database_doc (validate_experiment_doc
          (dictNorm ((none : Option Filter).getD [])))))
          [[("_id", Val.vId 2), ("deleted", Val.vBool true),
            ("heartbeat", Val.vTime 1)]]).mergeSort
          (docLe ((none : Option (List (String × Int))).getD
            [("heartbeat", (-1 : Int))]))))) = _
      rw [show List.filter
          (matchFilter (to_database_doc (validate_experiment_doc
            (dictNorm ((none : Option Filter).getD [])))))
          [[("_id", Val.vId 2), ("deleted", Val.vBool true),
            ("heartbeat", Val.vTime 1)]]
          = [[("_id", Val.vId 2), ("deleted", Val.vBool true),
              ("heartbeat", Val.vTime 1)]] from by decide]
      rw [List.mergeSort_singleton]
      rfl
    rw [h1]
    exact ⟨[("deleted", Val.vBool true), ("heartbeat", Val.vTime 1),
      ("id", Val.vId 2)], by simp, by decide⟩

/-- Witness for the C7 theorem: the one visible document a concrete store
yields has no deleted flag. -/
theorem iter_docs_props_witness :
    dlookup [("heartbeat", Val.vTime 1), ("id", Val.vId 2)] "deleted"
      ≠ some (Val.vBool true) := by
  have h := (iter_docs_props
    ⟨[[("_id", Val.vId 2), ("heartbeat", Val.vTime 1)]], 3, false⟩
    none none none none true).1
  refine h _ ?_
  have h1 : MLDB.iter_docs
      ⟨[[("_id", Val.vId 2), ("heartbeat", Val.vTime 1)]], 3, false⟩
      none none none none false
      = [[("heartbeat", Val.vTime 1), ("id", Val.vId 2)]] := by
    show List.map from_database_doc (applyLimit none (applySkip none
      ((List.filter (matchFilter (dset (to_database_doc
        (validate_experiment_doc (dictNorm ((none : Option Filter).getD []))))
        "deleted" (FVal.ne (Val.vBool true))))
        [[("_id", Val.vId 2), ("heartbeat", Val.vTime 1)]]).mergeSort
        (docLe ((none : Option (List (String × Int))).getD
          [("heartbeat", (-1 : Int))]))))) = _
    rw [show List.filter (matchFilter (dset (to_database_doc
        (validate_experiment_doc (dictNorm ((none : Option Filter).getD []))))
        "deleted" (FVal.ne (Val.vBool true))))
        [[("_id", Val.vId 2), ("heartbeat", Val.vTime 1)]]
        = [[("_id", Val.vId 2), ("heartbeat", Val.vTime 1)]] from by decide]
    rw [List.mergeSort_singleton]
    rfl
  rw [h1]
  simp

/-! The cascading soft delete, and C1. -/

/-- Reference runner: concatenates the per-child reference traversals. -/
def specDfsRun (f : Val → List Val) : List Val → List Val
  | [] => []
  | c :: rest => f c ++ specDfsRun f rest

/-- Reference traversal following the spec's words for mark_delete: the
target first, then depth-first through the documents whose parent_id is
the target, in stored order, over a fixed snapshot of the collection; a
target with no document contributes nothing.  The fuel mirrors the
embedded recursion bound of `markDeleteAux`. -/
def specDfs : Nat → List Doc → Val → List Val
  | 0 => fun _ _ => []
  | fuel + 1 => fun coll idv =>
    if coll.any (fun d => dlookup d "_id" == some idv) then
      idv :: specDfsRun (specDfs fuel coll)
        ((coll.filter fun d => dlookup d "parent_id" == some idv).filterMap
          fun d => dlookup d "_id")
    else []

/-- The marking pass only turns deleted flags on: pointwise, every
document keeps all its other fields, and its deleted flag either stays or
becomes true. -/
def markedOnly (c c' : List Doc) : Prop :=
  List.Forall₂ (fun d d' =>
    (∀ k, k ≠ "deleted" → dlookup d' k = dlookup d k)
    ∧ (dlookup d' "deleted" = dlookup d "deleted"
        ∨ dlookup d' "deleted" = some (Val.vBool true))) c c'

/-- Some stored document carries the identifier and is marked deleted. -/
def existsMarked (coll : List Doc) (v : Val) : Prop :=
  ∃ d ∈ coll, dlookup d "_id" = some v
    ∧ dlookup d "deleted" = some (Val.vBool true)

theorem markedOnly_refl (c : List Doc) : markedOnly c c := by
  induction c with
  | nil => exact List.Forall₂.nil
  | cons d rest ih => exact List.Forall₂.cons ⟨fun _ _ => rfl, Or.inl rfl⟩ ih

theorem markedOnly_trans {c₁ c₂ c₃ : List Doc}
    (h1 : markedOnly c₁ c₂) (h2 : markedOnly c₂ c₃) : markedOnly c₁ c₃ := by
  induction h1 generalizing c₃ with
  | nil => cases h2; exact List.Forall₂.nil
  | cons hd hrest ih =>
    cases h2 with
    | cons hd₂ hrest₂ =>
      refine List.Forall₂.cons ⟨?_, ?_⟩ (ih hrest₂)
      · intro k hk
        rw [hd₂.1 k hk, hd.1 k hk]
      · rcases hd₂.2 with h | h
        · rcases hd.2 with h' | h'
          · exact Or.inl (h.trans h')
          · exact Or.inr (h.trans h')
        · exact Or.inr h

theorem markedOnly_updateOne (p : Doc → Bool) (coll : List Doc) :
    markedOnly coll (updateOne p [("deleted", Val.vBool true)] coll).2 := by
  induction coll with
  | nil => exact List.Forall₂.nil
  | cons d rest ih =>
    by_cases hp : p d = true
    · rw [show (updateOne p [("deleted", Val.vBool true)] (d :: rest)).2
          = applySet [("deleted", Val.vBool true)] d :: rest by
        simp [updateOne, hp]]
      refine List.Forall₂.cons ⟨?_, ?_⟩ (markedOnly_refl rest)
      · intro k hk
        show dlookup (dset d "deleted" (Val.vBool true)) k = dlookup d k
        rw [dlookup_dset, if_neg (fun h => hk h.symm)]
      · refine Or.inr ?_
        show dlookup (dset d "deleted" (Val.vBool true)) "deleted" = _
        rw [dlookup_dset, if_pos rfl]
    · rw [show (updateOne p [("deleted", Val.vBool true)] (d :: rest)).2
          = d :: (updateOne p [("deleted", Val.vBool true)] rest).2 by
        simp [updateOne, hp]]
      exact List.Forall₂.cons ⟨fun _ _ => rfl, Or.inl rfl⟩ ih

theorem markedOnly_any_id (v : Val) {c c' : List Doc} (h : markedOnly c c') :
    (c'.any fun d => dlookup d "_id" == some v)
      = (c.any fun d => dlookup d "_id" == some v) := by
  induction h with
  | nil => rfl
  | cons hd _ ih =>
    rw [List.any_cons, List.any_cons, ih, hd.1 "_id" (by decide)]

theorem markedOnly_children (v : Val) {c c' : List Doc} (h : markedOnly c c') :
    (c'.filter fun d => dlookup d "parent_id" == some v).filterMap
        (fun d => dlookup d "_id")
      = (c.filter fun d => dlookup d "parent_id" == some v).filterMap
        (fun d => dlookup d "_id") := by
  induction h with
  | nil => rfl
  | @cons a b l₁ l₂ hd _ ih =>
    rw [List.filter_cons, List.filter_cons, hd.1 "parent_id" (by decide)]
    by_cases hc : (dlookup a "parent_id" == some v) = true
    · rw [if_pos hc, if_pos hc, List.filterMap_cons, List.filterMap_cons,
        hd.1 "_id" (by decide), ih]
    · rw [if_neg hc, if_neg hc, ih]

theorem updateOne_fst (p : Doc → Bool) (f : Doc) (coll : List Doc) :
    (updateOne p f coll).1 = if coll.any p then 1 else 0 := by
  induction coll with
  | nil => rfl
  | cons d rest ih =>
    by_cases hp : p d = true
    · simp [updateOne, hp]
    · simp [updateOne, hp, ih]

theorem existsMarked_mono {c c' : List Doc} (h : markedOnly c c') (v : Val) :
    existsMarked c v → existsMarked c' v := by
  induction h with
  | nil =>
    intro he
    obtain ⟨d, hd, -, -⟩ := he
    cases hd
  | @cons a b l₁ l₂ h₁ _ ih =>
    intro he
    obtain ⟨d, hd, hid, hdel⟩ := he
    rcases List.mem_cons.mp hd with hh | hh
    · subst hh
      refine ⟨b, by simp, ?_, ?_⟩
      · rw [h₁.1 "_id" (by decide)]
        exact hid
      · rcases h₁.2 with h2 | h2
        · rw [h2]
          exact hdel
        · exact h2
    · obtain ⟨d', hd', hp⟩ := ih ⟨d, hh, hid, hdel⟩
      exact ⟨d', List.mem_cons_of_mem _ hd', hp⟩

theorem runChildren_spec (fuel : Nat)
    (hP : ∀ (idv : Val) (coll coll₀ : List Doc), markedOnly coll₀ coll →
      (markDeleteAux fuel idv coll).1 = specDfs fuel coll₀ idv
      ∧ markedOnly coll₀ (markDeleteAux fuel idv coll).2
      ∧ ∀ v ∈ (markDeleteAux fuel idv coll).1,
          existsMarked (markDeleteAux fuel idv coll).2 v) :
    ∀ (cs : List Val) (coll coll₀ : List Doc), markedOnly coll₀ coll →
      (runChildren (markDeleteAux fuel) cs coll).1
          = specDfsRun (specDfs fuel coll₀) cs
      ∧ markedOnly coll₀ (runChildren (markDeleteAux fuel) cs coll).2
      ∧ ∀ v ∈ (runChildren (markDeleteAux fuel) cs coll).1,
          existsMarked (runChildren (markDeleteAux fuel) cs coll).2 v := by
  intro cs
  induction cs with
  | nil =>
    intro coll coll₀ hmo
    exact ⟨rfl, hmo, fun v hv => by cases hv⟩
  | cons c rest ih =>
    intro coll coll₀ hmo
    rw [show runChildren (markDeleteAux fuel) (c :: rest) coll
        = ((markDeleteAux fuel c coll).1
            ++ (runChildren (markDeleteAux fuel) rest
                (markDeleteAux fuel c coll).2).1,
           (runChildren (markDeleteAux fuel) rest
                (markDeleteAux fuel c coll).2).2) from rfl]
    obtain ⟨hl₁, hmo₁, hm₁⟩ := hP c coll coll₀ hmo
    obtain ⟨hl₂, hmo₂, hm₂⟩ := ih (markDeleteAux fuel c coll).2 coll₀ hmo₁
    obtain ⟨-, hmoStep, -⟩ := ih (markDeleteAux fuel c coll).2
      (markDeleteAux fuel c coll).2 (markedOnly_refl _)
    refine ⟨?_, hmo₂, ?_⟩
    · show _ ++ _ = specDfs fuel coll₀ c ++ specDfsRun (specDfs fuel coll₀) rest
      rw [hl₁, hl₂]
    · intro v hv
      rcases List.mem_append.mp hv with h | h
      · exact existsMarked_mono hmoStep v (hm₁ v h)
      · exact hm₂ v h

theorem markAux_spec : ∀ (fuel : Nat) (idv : Val) (coll coll₀ : List Doc),
    markedOnly coll₀ coll →
    (markDeleteAux fuel idv coll).1 = specDfs fuel coll₀ idv
    ∧ markedOnly coll₀ (markDeleteAux fuel idv coll).2
    ∧ ∀ v ∈ (markDeleteAux fuel idv coll).1,
        existsMarked (markDeleteAux fuel idv coll).2 v := by
  intro fuel
  induction fuel with
  | zero =>
    intro idv coll coll₀ hmo
    exact ⟨rfl, hmo, fun v hv => by cases hv⟩
  | succ n ih =>
    intro idv coll coll₀ hmo
    have hmoStep := markedOnly_updateOne
      (fun d => dlookup d "_id" == some idv) coll
    have hmoTot := markedOnly_trans hmo hmoStep
    by_cases hany : (coll.any fun d => dlookup d "_id" == some idv) = true
    · have hfst : (updateOne (fun d => dlookup d "_id" == some idv)
          [("deleted", Val.vBool true)] coll).1 = 1 := by
        rw [updateOne_fst, if_pos hany]
      have hany₀ : (coll₀.any fun d => dlookup d "_id" == some idv) = true := by
        rw [markedOnly_any_id idv hmo] at hany
        exact hany
      have hstep : markDeleteAux (n + 1) idv coll
          = (idv :: (runChildren (markDeleteAux n)
              (((updateOne (fun d => dlookup d "_id" == some idv)
                  [("deleted", Val.vBool true)] coll).2.filter
                  fun d => dlookup d "parent_id" == some idv).filterMap
                fun d => dlookup d "_id")
              (updateOne (fun d => dlookup d "_id" == some idv)
                [("deleted", Val.vBool true)] coll).2).1,
            (runChildren (markDeleteAux n)
              (((updateOne (fun d => dlookup d "_id" == some idv)
                  [("deleted", Val.vBool true)] coll).2.filter
                  fun d => dlookup d "parent_id" == some idv).filterMap
                fun d => dlookup d "_id")
              (updateOne (fun d => dlookup d "_id" == some idv)
                [("deleted", Val.vBool true)] coll).2).2) := by
        show (if (updateOne (fun d => dlookup d "_id" == some idv)
            [("deleted", Val.vBool true)] coll).1 > 0 then _ else _) = _
        rw [if_pos (by rw [hfst]; exact Nat.one_pos)]
      have hch := markedOnly_children idv hmoTot
      obtain ⟨hrc1, hrc2, hrc3⟩ := runChildren_spec n ih
        (((updateOne (fun d => dlookup d "_id" == some idv)
            [("deleted", Val.vBool true)] coll).2.filter
            fun d => dlookup d "parent_id" == some idv).filterMap
          fun d => dlookup d "_id")
        (updateOne (fun d => dlookup d "_id" == some idv)
          [("deleted", Val.vBool true)] coll).2 coll₀ hmoTot
      obtain ⟨-, hrcStep, -⟩ := runChildren_spec n ih
        (((updateOne (fun d => dlookup d "_id" == some idv)
            [("deleted", Val.vBool true)] coll).2.filter
            fun d => dlookup d "parent_id" == some idv).filterMap
          fun d => dlookup d "_id")
        (updateOne (fun d => dlookup d "_id" == some idv)
          [("deleted", Val.vBool true)] coll).2
        (updateOne (fun d => dlookup d "_id" == some idv)
          [("deleted", Val.vBool true)] coll).2 (markedOnly_refl _)
      have hmarked : existsMarked (updateOne
          (fun d => dlookup d "_id" == some idv)
          [("deleted", Val.vBool true)] coll).2 idv := by
        obtain ⟨d0, hd0, hp0⟩ := List.any_eq_true.mp hany
        obtain ⟨-, d1, -, hp1, hmem⟩ := updateOne_of_match
          (fun d => dlookup d "_id" == some idv)
          [("deleted", Val.vBool true)] coll ⟨d0, hd0, hp0⟩
        refine ⟨applySet [("deleted", Val.vBool true)] d1, hmem, ?_, ?_⟩
        · show dlookup (dset d1 "deleted" (Val.vBool true)) "_id" = some idv
          rw [dlookup_dset, if_neg (by decide)]
          exact beq_iff_eq.mp hp1
        · show dlookup (dset d1 "deleted" (Val.vBool true)) "deleted" = _
          rw [dlookup_dset, if_pos rfl]
      rw [hstep]
      refine ⟨?_, hrc2, ?_⟩
      · show idv :: _ = specDfs (n + 1) coll₀ idv
        rw [show specDfs (n + 1) coll₀ idv
            = (if coll₀.any (fun d => dlookup d "_id" == some idv) then
                idv :: specDfsRun (specDfs n coll₀)
                  ((coll₀.filter fun d => dlookup d "parent_id" == some idv).filterMap
                    fun d => dlookup d "_id")
              else []) from rfl,
          if_pos hany₀]
        rw [hrc1, hch]
      · intro v hv
        rcases List.mem_cons.mp hv with h | h
        · subst h
          exact existsMarked_mono hrcStep v hmarked
        · exact hrc3 v h
    · have hfst : (updateOne (fun d => dlookup d "_id" == some idv)
          [("deleted", Val.vBool true)] coll).1 = 0 := by
        rw [updateOne_fst, if_neg hany]
      have hany₀ : ¬ (coll₀.any fun d => dlookup d "_id" == some idv) = true := by
        rw [markedOnly_any_id idv hmo] at hany
        exact hany
      have hstep : markDeleteAux (n + 1) idv coll
          = ([], (updateOne (fun d => dlookup d "_id" == some idv)
              [("deleted", Val.vBool true)] coll).2) := by
        show (if (updateOne (fun d => dlookup d "_id" == some idv)
            [("deleted", Val.vBool true)] coll).1 > 0 then _ else _) = _
        rw [if_neg (by rw [hfst]; exact Nat.lt_irrefl 0)]
      rw [hstep]
      refine ⟨?_, hmoTot, fun v hv => by cases hv⟩
      show ([] : List Val) = specDfs (n + 1) coll₀ idv
      rw [show specDfs (n + 1) coll₀ idv
          = (if coll₀.any (fun d => dlookup d "_id" == some idv) then
              idv :: specDfsRun (specDfs n coll₀)
                ((coll₀.filter fun d => dlookup d "parent_id" == some idv).filterMap
                  fun d => dlookup d "_id")
            else []) from rfl,
        if_neg hany₀]

theorem markAux_no_match (fuel : Nat) (idv : Val) (coll : List Doc)
    (h : ∀ d ∈ coll, dlookup d "_id" ≠ some idv) :
    markDeleteAux fuel idv coll = ([], coll) := by
  cases fuel with
  | zero => rfl
  | succ n =>
    have hno : ∀ d ∈ coll, ((dlookup d "_id" == some idv) = false) := by
      intro d hd
      simpa using h d hd
    have hupd := updateOne_no_match (fun d => dlookup d "_id" == some idv)
      [("deleted", Val.vBool true)] coll hno
    show (if (updateOne (fun d => dlookup d "_id" == some idv)
        [("deleted", Val.vBool true)] coll).1 > 0 then _ else _) = _
    rw [hupd]
    rfl

/-- C1: for every well-formed identifier and every recursion fuel,
mark_delete returns exactly the reference depth-first traversal of the
target plus its transitive descendants over the pre-call collection
(target first, children in stored order); every identifier in that list
names a document marked deleted afterwards, regardless of its prior
soft-delete state; the pass changes nothing but deleted flags; and when no
document carries the identifier the call returns the empty list without
error and leaves the collection unchanged.  The source recursion is
unbounded, trusting that parent links are acyclic; the fuel bounds the
embedding, and the reference traversal is truncated identically. -/
theorem mark_delete_props (fuel : Nat) (db : MLDB) (id : ExpId) (i : Nat)
    (hid : validate_experiment_id id = .ok i) :
    (db.mark_delete fuel id).1
        = .ok (specDfs fuel db.collection (Val.vId i))
    ∧ (∀ v ∈ specDfs fuel db.collection (Val.vId i),
        existsMarked (db.mark_delete fuel id).2.collection v)
    ∧ markedOnly db.collection (db.mark_delete fuel id).2.collection
    ∧ ((∀ d ∈ db.collection, dlookup d "_id" ≠ some (Val.vId i)) →
        (db.mark_delete fuel id).1 = .ok []
        ∧ (db.mark_delete fuel id).2.collection = db.collection) := by
  have heq : db.mark_delete fuel id
      = (.ok (markDeleteAux fuel (Val.vId i) db.collection).1,
         { db.ensure_indexes with
             collection := (markDeleteAux fuel (Val.vId i) db.collection).2 }) := by
    unfold MLDB.mark_delete
    rw [hid]
    rfl
  obtain ⟨h1, h2, h3⟩ := markAux_spec fuel (Val.vId i) db.collection
    db.collection (markedOnly_refl _)
  rw [heq]
  dsimp only
  refine ⟨by rw [h1], ?_, h2, ?_⟩
  · intro v hv
    rw [← h1] at hv
    exact h3 v hv
  · intro hnone
    rw [markAux_no_match fuel (Val.vId i) db.collection hnone]
    exact ⟨rfl, rfl⟩

/-- Witness for the C1 theorem: the spec's root, two children and one
grandchild; the traversal is root, first child, grandchild, second
child. -/
theorem mark_delete_props_witness :
    (MLDB.mark_delete 5 ⟨[[("_id", Val.vId 0)],
        [("_id", Val.vId 1), ("parent_id", Val.vId 0)],
        [("_id", Val.vId 2), ("parent_id", Val.vId 0)],
        [("_id", Val.vId 3), ("parent_id", Val.vId 1)]], 4, false⟩
      (ExpId.valid 0)).1
      = .ok [Val.vId 0, Val.vId 1, Val.vId 3, Val.vId 2] := by
  have h := (mark_delete_props 5 ⟨[[("_id", Val.vId 0)],
      [("_id", Val.vId 1), ("parent_id", Val.vId 0)],
      [("_id", Val.vId 2), ("parent_id", Val.vId 0)],
      [("_id", Val.vId 3), ("parent_id", Val.vId 1)]], 4, false⟩
    (ExpId.valid 0) 0 rfl).1
  rw [h]
  rfl

end Mldb
